import Mathlib

/-!
Verification development for the `gms` repository: a manager of local
on-disk caches of remote (git-hosted) repositories.

The Go source is embedded shallowly:

* pure string manipulation (URL detection) becomes pure Lean functions on
  `String` / `List Char` (the inputs of interest are ASCII, where Go's
  byte indexing and Lean's character indexing agree);
* the external git subprocess becomes an explicit oracle
  `GitClient : List String → Except GitError String` passed to the
  functions that use it (in Go it is a bound interface value);
* filesystem side effects (`os.RemoveAll`, directory walking) are recorded
  as explicit event traces over a static directory tree;
* Go maps become association lists with Go-map lookup/insert/delete
  semantics, and the `nil` map is modelled by `Option`, `none` being the
  uninitialised map (reads succeed, writes panic);
* `encoding/json` marshalling of the flat, all-string repository records
  is modelled at the level of the JSON document (an AST of objects and
  strings) rather than of the serialised byte string: `Opaque` holds the
  document a faithful serialiser would print.
-/

/-- Models `path/filepath.Join` on two arguments that are already clean
(no redundant separators, no `.`/`..` segments), which is the only way the
repository invokes it: `Join("", x) = x`, `Join(x, "") = x`, otherwise the
parts are joined with a single separator. -/
def filepathJoin (a b : String) : String :=
  if a = "" then b else if b = "" then a else a ++ "/" ++ b

/-- `filepath.Join` on three clean components. -/
def join3 (a b c : String) : String := filepathJoin (filepathJoin a b) c

/-- Models Go `strings.HasPrefix` (ASCII inputs). -/
def strHasPrefix (s pre : String) : Bool := pre.toList.isPrefixOf s.toList

/-- Models Go `strings.HasSuffix` (ASCII inputs). -/
def strHasSuffix (s suf : String) : Bool := suf.toList.isSuffixOf s.toList

/-- Models Go `strings.Index(s, c)` for a one-character separator: the
index of the first occurrence, `-1` when absent. -/
def strIndex (s : String) (c : Char) : Int :=
  match s.toList.findIdx? (· = c) with
  | some n => (n : Int)
  | none => -1

/-! ### Go map model

Go maps are modelled as association lists with at most one binding per
key; `mapInsert` overwrites like a Go map assignment and `mapErase` is
`delete`. The `nil` map of a zero-valued struct is `none` at the use
sites (`RepoCache.repos`). -/

def mapLookup {α : Type} (m : List (String × α)) (k : String) : Option α :=
  (m.find? (fun p => p.1 = k)).map (·.2)

def mapErase {α : Type} (m : List (String × α)) (k : String) : List (String × α) :=
  m.filter (fun p => ¬ p.1 = k)

def mapInsert {α : Type} (m : List (String × α)) (k : String) (v : α) :
    List (String × α) :=
  (k, v) :: mapErase m k

/-! ### Git client (src/gms/git.go)

`GitClient` abstracts the external `git` program: the argument vector in,
captured stdout or a structured `GitError` out. The embedding passes the
client explicitly where the Go code reads it from a struct field. -/

/-- `GitError` from git.go: captured stderr plus the generic error text. -/
structure GitError where
  output : String
  err : String
deriving DecidableEq

/-- `GitClient.Exec`: the subprocess as a deterministic oracle. -/
def GitClient : Type := List String → Except GitError String

/-- Whether a client call succeeded (`err == nil` in Go). -/
def execOk : Except GitError String → Bool
  | .ok _ => true
  | .error _ => false

/-- `GitWorkTree.Exec` with an empty `GitDir` (the only configuration
`Sync` builds): prepends `-C <workdir>`. The Go method panics when
`WorkDir` is empty; `GitRepo.sync` models that case separately. -/
def workTreeArgs (workDir : String) (args : List String) : List String :=
  ["-C", workDir] ++ args

/-- The argument vector of `GitWorkTree.LatestCommit`. -/
def latestCommitArgs (workDir : String) : List String :=
  workTreeArgs workDir ["log", "-1", "--format=%H"]

/-- The argument vector of `GitWorkTree.Pull`. -/
def pullArgs (workDir : String) : List String :=
  workTreeArgs workDir ["pull"]

/-- The argument vector of `GitWorkTree.Clone remote` (the work dir is the
clone destination). -/
def cloneArgs (workDir remote : String) : List String :=
  workTreeArgs workDir ["clone", remote, workDir]

/-- `GitRepo` from git.go, without the non-persisted `Client` capability
(the embedding passes the client as an explicit argument instead). -/
structure GitRepo where
  url : String
  protocol : String := ""
  repoName : String := ""
  remote : String := ""
  path : String := ""
deriving DecidableEq

/-- `LocalRepo` from local.go. -/
structure LocalRepo where
  baseDir : String
  path : String
deriving DecidableEq

/-- Errors surfaced by `GitRepo.Detect`: the sentinel invalid-URL error,
or the panic on a missing URL. -/
inductive DetectError where
  | invalidGitURL
  | panicURLRequired
deriving DecidableEq

/-- The probing loop of `detectPrefixed`, char by char over the unconsumed
path. It accumulates the current maximal run of non-`/` characters in
`seg`; reaching a `/` after a nonempty run (Go's `pos > 0` case) or the
end of the path (Go's `pos < 0` case) probes `prefix+base` with
`ls-remote`; a `/` with an empty run (Go's `pos == 0` case) moves the
slash into `base` without probing. Returns `(base, remaining path)` of
the first successful probe. -/
def detectLoop (client : GitClient) (pfx : String) (base seg : List Char) :
    List Char → Option (List Char × List Char)
  | [] =>
    if seg = [] then none
    else
      let base' := base ++ seg
      if execOk (client ["ls-remote", pfx ++ String.mk base']) then some (base', [])
      else none
  | c :: rest =>
    if c = '/' then
      if seg = [] then detectLoop client pfx (base ++ ['/']) [] rest
      else
        let base' := base ++ seg
        if execOk (client ["ls-remote", pfx ++ String.mk base']) then
          some (base', c :: rest)
        else detectLoop client pfx (base' ++ ['/']) [] rest
    else detectLoop client pfx base (seg ++ [c]) rest

/-- `GitRepo.detectPrefixed`: probe increasingly long leading segments of
`path` under the fixed `pfx`; the first success fixes `RepoName`, `Path`
and `Remote`. -/
def GitRepo.detectPrefixed (client : GitClient) (r : GitRepo)
    (pfx path : String) : Except DetectError GitRepo :=
  match detectLoop client pfx [] [] path.toList with
  | some (base, rest) =>
    .ok { r with repoName := String.mk base
                 path := String.mk rest
                 remote := pfx ++ String.mk base }
  | none => .error .invalidGitURL

/-- `GitRepo.Detect`: classify the URL's leading shape by the first `/`,
`:` and `@`, then delegate to `detectPrefixed`. -/
def GitRepo.detect (client : GitClient) (r : GitRepo) :
    Except DetectError GitRepo :=
  if r.url = "" then .error .panicURLRequired
  else
    let slashPos := strIndex r.url '/'
    let colonPos := strIndex r.url ':'
    let atPos := strIndex r.url '@'
    -- user@host:repo/path
    if atPos > 0 ∧ atPos < colonPos ∧ (slashPos < 0 ∨ colonPos < slashPos) then
      GitRepo.detectPrefixed client { r with protocol := "ssh" }
        (r.url.take (colonPos + 1).toNat) (r.url.drop (colonPos + 1).toNat)
    -- protocol://host/repo/path
    else if colonPos > 0 ∧ colonPos < slashPos ∧
        strHasPrefix (r.url.drop (colonPos + 1).toNat) "//" then
      GitRepo.detectPrefixed client
        { r with protocol := r.url.take colonPos.toNat }
        (r.url.take (colonPos + 3).toNat) (r.url.drop (colonPos + 3).toNat)
    -- ./path, ../path, /path
    else if strHasPrefix r.url "./" ∨ strHasPrefix r.url "../" ∨
        strHasPrefix r.url "/" then
      GitRepo.detectPrefixed client { r with protocol := "file" }
        "file://" r.url
    -- host/repo/path: try http://, https://, file:// in order
    else
      match GitRepo.detectPrefixed client r "http://" r.url with
      | .ok r' => .ok { r' with protocol := "http" }
      | .error _ =>
        match GitRepo.detectPrefixed client r "https://" r.url with
        | .ok r' => .ok { r' with protocol := "https" }
        | .error _ =>
          match GitRepo.detectPrefixed client r "file://" r.url with
          | .ok r' => .ok { r' with protocol := "file" }
          | .error _ => .error .invalidGitURL

/-! ### GitRepo.Sync (git.go)

`Sync` observes the filesystem only through the git subprocess and
`os.RemoveAll`; both are recorded in an event trace. -/

/-- One observable action of `GitRepo.Sync`. -/
inductive SyncEvent where
  | exec (args : List String)
  | removeAll (dir : String)
deriving DecidableEq

/-- The outcome of `GitRepo.Sync`: the recorded events and the returned
error, or the panic `GitWorkTree.Exec` raises on an empty work dir. -/
inductive SyncResult where
  | panicked
  | finished (events : List SyncEvent) (err : Option GitError)
deriving DecidableEq

/-- The clone fallback at the end of `Sync`: destroy the work dir, clone
the remote, and return the clone's error. -/
def syncFallback (client : GitClient) (remote dir : String)
    (evs : List SyncEvent) : SyncResult :=
  let res := client (cloneArgs dir remote)
  .finished (evs ++ [.removeAll dir, .exec (cloneArgs dir remote)])
    (match res with | .ok _ => none | .error e => some e)

/-- `GitRepo.Sync`: probe with `LatestCommit`; on success `Pull` then
`LatestCommit` again (`PullAndVerify`); if anything failed, remove the
directory and `Clone` the remote. -/
def GitRepo.sync (client : GitClient) (remote dir : String) : SyncResult :=
  if dir = "" then .panicked
  else
    match client (latestCommitArgs dir) with
    | .ok _ =>
      match client (pullArgs dir) with
      | .ok _ =>
        match client (latestCommitArgs dir) with
        | .ok _ =>
          .finished [.exec (latestCommitArgs dir), .exec (pullArgs dir),
            .exec (latestCommitArgs dir)] none
        | .error _ =>
          syncFallback client remote dir
            [.exec (latestCommitArgs dir), .exec (pullArgs dir),
             .exec (latestCommitArgs dir)]
      | .error _ =>
        syncFallback client remote dir
          [.exec (latestCommitArgs dir), .exec (pullArgs dir)]
    | .error _ =>
      syncFallback client remote dir [.exec (latestCommitArgs dir)]

instance {ε α : Type} [DecidableEq ε] [DecidableEq α] : DecidableEq (Except ε α) := fun x y =>
  match x, y with
  | .ok a, .ok b => if h : a = b then .isTrue (by rw [h]) else .isFalse (by simp [h])
  | .ok _, .error _ => .isFalse (by simp)
  | .error _, .ok _ => .isFalse (by simp)
  | .error a, .error b => if h : a = b then .isTrue (by rw [h]) else .isFalse (by simp [h])

/-! ### Persistence (src/gms/repository.go, local.go, git.go)

`PersistentHandle.Opaque` is a JSON string in Go; it is modelled as the
JSON document that string encodes (objects with string fields are all the
repository ever marshals). `jsonGetStr` mirrors `encoding/json`
unmarshalling of one string field: a missing key keeps the zero value, a
key bound to a non-string is a type error. -/

/-- A JSON document as the repository uses it. -/
inductive Json where
  | str (s : String)
  | obj (fields : List (String × Json))

/-- First binding of a key in a JSON object. -/
def jsonLookup (fields : List (String × Json)) (k : String) : Option Json :=
  (fields.find? (fun p => p.1 = k)).map (·.2)

/-- Unmarshal one string field: absent keys yield Go's zero value `""`. -/
def jsonGetStr (fields : List (String × Json)) (k : String) :
    Except String String :=
  match jsonLookup fields k with
  | none => .ok ""
  | some (.str s) => .ok s
  | some (.obj _) => .error "json: cannot unmarshal object into field of type string"

/-- `PersistentHandle` from repository.go (`Type` and `Opaque`). -/
structure PersistentHandle where
  ptype : String
  pdata : Json

/-- `GitRepoType` constant. -/
def gitRepoTypeName : String := "git"

/-- `LocalRepoType` constant. -/
def localRepoTypeName : String := "local"

/-- `json.Marshal` of a `GitRepo` (the `Client` field carries the
`json:"-"` tag and is not persisted). -/
def marshalGitRepo (r : GitRepo) : Json :=
  .obj [("url", .str r.url), ("protocol", .str r.protocol),
        ("name", .str r.repoName), ("remote", .str r.remote),
        ("path", .str r.path)]

/-- `json.Unmarshal` into a `GitRepo`. -/
def unmarshalGitRepo (j : Json) : Except String GitRepo :=
  match j with
  | .str _ => .error "json: cannot unmarshal string into GitRepo"
  | .obj fs => do
    let url ← jsonGetStr fs "url"
    let protocol ← jsonGetStr fs "protocol"
    let name ← jsonGetStr fs "name"
    let remote ← jsonGetStr fs "remote"
    let path ← jsonGetStr fs "path"
    .ok { url := url, protocol := protocol, repoName := name,
          remote := remote, path := path }

/-- `json.Marshal` of a `LocalRepo`. -/
def marshalLocalRepo (r : LocalRepo) : Json :=
  .obj [("base", .str r.baseDir), ("path", .str r.path)]

/-- `json.Unmarshal` into a `LocalRepo`. -/
def unmarshalLocalRepo (j : Json) : Except String LocalRepo :=
  match j with
  | .str _ => .error "json: cannot unmarshal string into LocalRepo"
  | .obj fs => do
    let base ← jsonGetStr fs "base"
    let path ← jsonGetStr fs "path"
    .ok { baseDir := base, path := path }

/-- The closed set of repository variants (`Repository` implementers). -/
inductive Repo where
  | localR (r : LocalRepo)
  | gitR (r : GitRepo)
deriving DecidableEq

/-- `GitRepo.Persist`. -/
def GitRepo.persist (r : GitRepo) : PersistentHandle :=
  ⟨gitRepoTypeName, marshalGitRepo r⟩

/-- `LocalRepo.Persist`. -/
def LocalRepo.persist (r : LocalRepo) : PersistentHandle :=
  ⟨localRepoTypeName, marshalLocalRepo r⟩

/-- `Persist` dispatched over the variants. -/
def Repo.persist : Repo → PersistentHandle
  | .localR r => r.persist
  | .gitR r => r.persist

/-- `BasePath` dispatched over the variants: `LocalRepo` joins `BaseDir`
and `Path`; `GitRepo` returns its sub-path. -/
def Repo.basePath : Repo → String
  | .localR r => filepathJoin r.baseDir r.path
  | .gitR r => r.path

/-- The `RemoteRepo` capability: only `GitRepo` has `Sync`, so the Go
type assertion `repo.(RemoteRepo)` succeeds exactly on the git variant. -/
def Repo.asRemote : Repo → Option GitRepo
  | .localR _ => none
  | .gitR r => some r

/-- A factory's two Go results `(Repository, error)`. The Go `GitRepoFactory`
returns a partially decoded non-nil object alongside a decode error; every
caller discards the object when the error is non-nil, so the error case
carries `none` here. -/
def RepoFactoryResult : Type := Option Repo × Option String

/-- `GitRepoFactory` from git.go. -/
def GitRepoFactory (h : PersistentHandle) : RepoFactoryResult :=
  if h.ptype ≠ gitRepoTypeName then (none, none)
  else
    match unmarshalGitRepo h.pdata with
    | .ok r => (some (.gitR r), none)
    | .error e => (none, some e)

/-- `LocalRepoFactory` from local.go. -/
def LocalRepoFactory (h : PersistentHandle) : RepoFactoryResult :=
  if h.ptype ≠ localRepoTypeName then (none, none)
  else
    match unmarshalLocalRepo h.pdata with
    | .ok r => (some (.localR r), none)
    | .error e => (none, some e)

/-- The `RepoFactories` registry from repository.go, keyed by type tag. -/
def RepoFactories : String → Option (PersistentHandle → RepoFactoryResult) :=
  fun t =>
    if t = gitRepoTypeName then some GitRepoFactory
    else if t = localRepoTypeName then some LocalRepoFactory
    else none

/-! ### RepoCache (cache.go, cachedrepo.go) -/

/-- `CachedRepo`: a remote repository paired with its local clone dir.
`GitRepo` is the only `RemoteRepo` variant, so `Remote` is a `GitRepo`. -/
structure CachedRepo where
  name : String
  remote : GitRepo
  localDir : String
deriving DecidableEq

/-- `CacheReposDir` constant. -/
def cacheReposDirName : String := "repos"

/-- `RepoCache`: the base directory and the in-memory index. `none`
models the `nil` map of a freshly constructed (never loaded) cache. -/
structure RepoCache where
  baseDir : String
  repos : Option (List (String × CachedRepo))
deriving DecidableEq

/-- `RepoCache.Find`: a read of a possibly-`nil` Go map. -/
def RepoCache.find (c : RepoCache) (name : String) : Option CachedRepo :=
  match c.repos with
  | none => none
  | some m => mapLookup m name

/-- Errors returned by `Add`/`Remove`: the duplicate-name sentinel, or a
persistence failure propagated from `Save`. -/
inductive CacheErr where
  | alreadyExists
  | saveFailed (msg : String)
deriving DecidableEq

/-- The Go return values of `RepoCache.Add` plus the post-call state and
whether `Save` ran (the embedding threads state explicitly). -/
structure AddReturn where
  repo : Option CachedRepo
  err : Option CacheErr
  state : RepoCache
  saveAttempted : Bool
deriving DecidableEq

/-- The outcome of `RepoCache.Add`: a normal return, or the runtime panic
of an assignment into a `nil` map. -/
inductive AddOutcome where
  | panicked
  | returned (r : AddReturn)
deriving DecidableEq

/-- `RepoCache.Add`. `saveErr` is the outcome the external config store
gives the `Save` performed after the insertion (`none` = success). -/
def RepoCache.add (c : RepoCache) (saveErr : Option String) (name : String)
    (remote : GitRepo) : AddOutcome :=
  match c.find name with
  | some r => .returned ⟨some r, some .alreadyExists, c, false⟩
  | none =>
    match c.repos with
    | none => .panicked
    | some m =>
      let cached : CachedRepo :=
        ⟨name, remote, join3 c.baseDir cacheReposDirName name⟩
      let m' := mapInsert m name cached
      match saveErr with
      | some e =>
        .returned ⟨none, some (.saveFailed e),
          { c with repos := some (mapErase m' name) }, true⟩
      | none => .returned ⟨some cached, none, { c with repos := some m' }, true⟩

/-- The Go return value of `RepoCache.Remove` plus the post-call state and
whether `Save` ran. -/
structure RemoveReturn where
  err : Option CacheErr
  state : RepoCache
  saveAttempted : Bool
deriving DecidableEq

/-- `RepoCache.Remove`. `saveErr` as in `RepoCache.add`. A missing entry
is a no-op; a `nil` map reads as empty, so it is a no-op too. -/
def RepoCache.remove (c : RepoCache) (saveErr : Option String)
    (name : String) : RemoveReturn :=
  match c.repos with
  | none => ⟨none, c, false⟩
  | some m =>
    match mapLookup m name with
    | none => ⟨none, c, false⟩
    | some r =>
      let m' := mapErase m name
      match saveErr with
      | some e =>
        ⟨some (.saveFailed e), { c with repos := some (mapInsert m' name r) }, true⟩
      | none => ⟨none, { c with repos := some m' }, true⟩

/-- `RepoCache.Load`'s per-entry loop over the decoded `CacheConfig`:
unregistered type tags are skipped, factory errors are collected and the
loop continues, non-remote repositories are skipped, and each resolved
remote is stored under its name with the derived local dir. Returns the
updated map and the collected errors in iteration order. -/
def loadLoop (baseDir : String) :
    List (String × PersistentHandle) → List (String × CachedRepo) →
    List (String × CachedRepo) × List String
  | [], m => (m, [])
  | (name, h) :: rest, m =>
    match RepoFactories h.ptype with
    | none => loadLoop baseDir rest m
    | some f =>
      match f h with
      | (_, some e) =>
        let (m', errs) := loadLoop baseDir rest m
        (m', e :: errs)
      | (none, none) => loadLoop baseDir rest m
      | (some repo, none) =>
        match repo.asRemote with
        | none => loadLoop baseDir rest m
        | some g =>
          loadLoop baseDir rest
            (mapInsert m name ⟨name, g, join3 baseDir cacheReposDirName name⟩)

/-- The error returned by `RepoCache.Load`: a read/decode failure that
aborts before the loop, or the aggregate of the per-entry factory
errors. -/
inductive LoadError where
  | ioError (msg : String)
  | aggregated (errs : List String)
deriving DecidableEq

/-- `RepoCache.Load`. `input` stands for the external read-and-decode of
the config file: an error, or the decoded `CacheConfig.Repos` (`none`
models a JSON document whose `Repos` field is null, which Go decodes to a
`nil` map and `Load` returns early on). Only on a successful decode is
the `nil` in-memory map replaced by an initialised one. -/
def RepoCache.load (c : RepoCache)
    (input : Except String (Option (List (String × PersistentHandle)))) :
    RepoCache × Option LoadError :=
  match input with
  | .error e => (c, some (.ioError e))
  | .ok cfgRepos =>
    let init : List (String × CachedRepo) := (c.repos).getD []
    let c1 : RepoCache := { c with repos := some init }
    match cfgRepos with
    | none => (c1, none)
    | some entries =>
      let (m, errs) := loadLoop c.baseDir entries init
      ({ c1 with repos := some m },
       if errs = [] then none else some (.aggregated errs))

/-! ### RepoWalker (walker.go)

The walk runs over a static directory tree given as a nested value; a
directory's entries are listed in the order `Readdir` yields them. The Go
walker hands filters a pointer to the item but itself never mutates the
item after construction, so filters are modelled as pure functions.

`visitDir` is split into the first pass over a directory's entries
(`visitEntries`) and the breadth-first deferred descent (`visitSubdirs`).
The Go code defers the accepted subdirectories in a slice during the
first pass; since filters are pure, the deferred set equals the accepted
directories recomputed from the entry list, which is how `visitSubdirs`
walks it. `visitSubdirs` only ever runs after an error-free first pass,
exactly as the deferred loop does. -/

/-- The two fields of `os.FileInfo` the walker consumes. -/
structure FileInfo where
  name : String
  isDir : Bool
deriving DecidableEq

/-- One entry of a static directory tree. -/
inductive FsEntry where
  | file (n : String)
  | dir (n : String) (entries : List FsEntry)

/-- The entry's name (`FileInfo.Name`). -/
def FsEntry.name : FsEntry → String
  | .file n => n
  | .dir n _ => n

/-- The entry's `os.Lstat` result as the walker sees it. -/
def FsEntry.info : FsEntry → FileInfo
  | .file n => ⟨n, false⟩
  | .dir n _ => ⟨n, true⟩

/-- `WalkingItem` from walker.go. -/
structure WalkingItem where
  repoName : String
  repo : Repo
  path : String
  name : String
  fileInfo : FileInfo
deriving DecidableEq

/-- The item `visit` constructs for one directory entry. -/
def entryItem (rname : String) (repo : Repo) (basePath : String)
    (e : FsEntry) : WalkingItem :=
  ⟨rname, repo, basePath, e.name, e.info⟩

/-- A walker filter: accept/reject, or a filter error aborting the walk. -/
def RepoWalkerFilter : Type := WalkingItem → Except String Bool

/-- The walker callback; `some msg` is a callback error aborting the walk. -/
def RepoWalkerFn : Type := WalkingItem → Option String

/-- `RepoWalker` from walker.go. -/
structure RepoWalker where
  walkerFn : RepoWalkerFn
  pathPrefix : String
  filters : List RepoWalkerFilter
  breadthFirst : Bool

/-- The filter chain: registration order, first rejection or first filter
error stops the chain. -/
def runFilters (filters : List RepoWalkerFilter) (item : WalkingItem) :
    Except String Bool :=
  match filters with
  | [] => .ok true
  | f :: rest =>
    match f item with
    | .error e => .error e
    | .ok false => .ok false
    | .ok true => runFilters rest item

/-- What one directory visit observably did: the items passed to the
callback in order, the filesystem paths opened in order, and the error
that aborted the walk, if any. -/
structure VisitResult where
  trace : List WalkingItem
  opened : List String
  err : Option String
deriving DecidableEq

/-- The assembly of one directory's visit from its first pass `r1` and
(in breadth-first mode) its deferred descent `r2`: the Go `visit` opens
the prefixed path, runs the entry loop, and on success runs the deferred
loop. -/
def assembleDir (w : RepoWalker) (basePath : String) (r1 r2 : VisitResult) :
    VisitResult :=
  match r1.err with
  | some msg => ⟨r1.trace, (w.pathPrefix ++ basePath) :: r1.opened, some msg⟩
  | none =>
    if w.breadthFirst then
      ⟨r1.trace ++ r2.trace, (w.pathPrefix ++ basePath) :: (r1.opened ++ r2.opened),
       r2.err⟩
    else ⟨r1.trace, (w.pathPrefix ++ basePath) :: r1.opened, none⟩

mutual

/-- The entry loop of `visit` over one directory's remaining entries:
build the item, run the filter chain, invoke the callback, and in
depth-first mode recurse into an accepted directory (`fi.IsDir()`)
immediately via `visitSubtree`. -/
def visitEntries (w : RepoWalker) (rname : String) (repo : Repo)
    (basePath : String) : List FsEntry → VisitResult
  | [] => ⟨[], [], none⟩
  | e :: rest =>
    let item := entryItem rname repo basePath e
    match runFilters w.filters item with
    | .error msg => ⟨[], [], some msg⟩
    | .ok false => visitEntries w rname repo basePath rest
    | .ok true =>
      match w.walkerFn item with
      | some msg => ⟨[item], [], some msg⟩
      | none =>
        if e.info.isDir then
          if w.breadthFirst then
            let r := visitEntries w rname repo basePath rest
            ⟨item :: r.trace, r.opened, r.err⟩
          else
            let rd := visitSubtree w rname repo basePath e
            match rd.err with
            | some msg => ⟨item :: rd.trace, rd.opened, some msg⟩
            | none =>
              let r := visitEntries w rname repo basePath rest
              ⟨item :: (rd.trace ++ r.trace), rd.opened ++ r.opened, r.err⟩
        else
          let r := visitEntries w rname repo basePath rest
          ⟨item :: r.trace, r.opened, r.err⟩

/-- The deferred breadth-first descent of `visit`: the accepted
directories of the entry list, in discovery order, each subtree visited
to completion before the next. -/
def visitSubdirs (w : RepoWalker) (rname : String) (repo : Repo)
    (basePath : String) : List FsEntry → VisitResult
  | [] => ⟨[], [], none⟩
  | e :: rest =>
    if e.info.isDir then
      if runFilters w.filters (entryItem rname repo basePath e) = .ok true then
        let rd := visitSubtree w rname repo basePath e
        match rd.err with
        | some _ => rd
        | none =>
          let r := visitSubdirs w rname repo basePath rest
          ⟨rd.trace ++ r.trace, rd.opened ++ r.opened, r.err⟩
      else visitSubdirs w rname repo basePath rest
    else visitSubdirs w rname repo basePath rest

/-- One subdirectory's recursive visit: the Go `w.visit` call on
`join(basePath, name)`. A file contributes nothing (the walker never
descends into files). -/
def visitSubtree (w : RepoWalker) (rname : String) (repo : Repo)
    (basePath : String) : FsEntry → VisitResult
  | .file _ => ⟨[], [], none⟩
  | .dir dn children =>
    assembleDir w (filepathJoin basePath dn)
      (visitEntries w rname repo (filepathJoin basePath dn) children)
      (visitSubdirs w rname repo (filepathJoin basePath dn) children)

end

/-- `visit` on one directory. -/
def visitDir (w : RepoWalker) (rname : String) (repo : Repo)
    (basePath : String) (entries : List FsEntry) : VisitResult :=
  assembleDir w basePath
    (visitEntries w rname repo basePath entries)
    (visitSubdirs w rname repo basePath entries)

/-- `RepoWalker.Visit`: start the walk at `repo.BasePath()`, `tree` being
the directory contents found there. -/
def RepoWalker.visit (w : RepoWalker) (name : String) (repo : Repo)
    (tree : List FsEntry) : VisitResult :=
  visitDir w name repo repo.basePath tree

/-! Unfolding equations for the mutual visit functions, in the per-case
form the proofs below rewrite with. -/

theorem visitEntries_nil (w : RepoWalker) (rname : String) (repo : Repo)
    (base : String) : visitEntries w rname repo base [] = ⟨[], [], none⟩ := rfl

theorem visitEntries_cons_file (w : RepoWalker) (rname : String) (repo : Repo)
    (base : String) (n : String) (rest : List FsEntry) :
    visitEntries w rname repo base (.file n :: rest) =
      (let item := entryItem rname repo base (.file n)
       match runFilters w.filters item with
       | .error msg => ⟨[], [], some msg⟩
       | .ok false => visitEntries w rname repo base rest
       | .ok true =>
         match w.walkerFn item with
         | some msg => ⟨[item], [], some msg⟩
         | none =>
           let r := visitEntries w rname repo base rest
           ⟨item :: r.trace, r.opened, r.err⟩) := rfl

theorem visitEntries_cons_dir (w : RepoWalker) (rname : String) (repo : Repo)
    (base : String) (dn : String) (ch rest : List FsEntry) :
    visitEntries w rname repo base (.dir dn ch :: rest) =
      (let item := entryItem rname repo base (.dir dn ch)
       match runFilters w.filters item with
       | .error msg => ⟨[], [], some msg⟩
       | .ok false => visitEntries w rname repo base rest
       | .ok true =>
         match w.walkerFn item with
         | some msg => ⟨[item], [], some msg⟩
         | none =>
           if w.breadthFirst then
             let r := visitEntries w rname repo base rest
             ⟨item :: r.trace, r.opened, r.err⟩
           else
             let rd := assembleDir w (filepathJoin base dn)
               (visitEntries w rname repo (filepathJoin base dn) ch)
               (visitSubdirs w rname repo (filepathJoin base dn) ch)
             match rd.err with
             | some msg => ⟨item :: rd.trace, rd.opened, some msg⟩
             | none =>
               let r := visitEntries w rname repo base rest
               ⟨item :: (rd.trace ++ r.trace), rd.opened ++ r.opened, r.err⟩) := rfl

theorem visitSubdirs_nil (w : RepoWalker) (rname : String) (repo : Repo)
    (base : String) : visitSubdirs w rname repo base [] = ⟨[], [], none⟩ := rfl

theorem visitSubdirs_cons_file (w : RepoWalker) (rname : String) (repo : Repo)
    (base : String) (n : String) (rest : List FsEntry) :
    visitSubdirs w rname repo base (.file n :: rest) =
      visitSubdirs w rname repo base rest := rfl

theorem visitSubdirs_cons_dir (w : RepoWalker) (rname : String) (repo : Repo)
    (base : String) (dn : String) (ch rest : List FsEntry) :
    visitSubdirs w rname repo base (.dir dn ch :: rest) =
      (if runFilters w.filters (entryItem rname repo base (.dir dn ch)) =
          .ok true then
        let rd := assembleDir w (filepathJoin base dn)
          (visitEntries w rname repo (filepathJoin base dn) ch)
          (visitSubdirs w rname repo (filepathJoin base dn) ch)
        match rd.err with
        | some _ => rd
        | none =>
          let r := visitSubdirs w rname repo base rest
          ⟨rd.trace ++ r.trace, rd.opened ++ r.opened, r.err⟩
      else visitSubdirs w rname repo base rest) := rfl

/-! ### Map lemmas -/

theorem mapLookup_cons {α : Type} (a : String) (b : α) (rest : List (String × α)) (k : String) :
    mapLookup ((a, b) :: rest) k = if a = k then some b else mapLookup rest k := by
  by_cases h : a = k <;> simp [mapLookup, List.find?_cons, h]

theorem mapErase_cons {α : Type} (a : String) (b : α) (rest : List (String × α)) (k : String) :
    mapErase ((a, b) :: rest) k =
      if a = k then mapErase rest k else (a, b) :: mapErase rest k := by
  by_cases h : a = k <;> simp [mapErase, List.filter_cons, h]

theorem mapErase_of_lookup_none {α : Type} (m : List (String × α)) (k : String)
    (h : mapLookup m k = none) : mapErase m k = m := by
  induction m with
  | nil => rfl
  | cons p rest ih =>
    obtain ⟨a, b⟩ := p
    rw [mapLookup_cons] at h
    by_cases hk : a = k
    · simp [hk] at h
    · rw [mapErase_cons, if_neg hk, ih (by simpa [hk] using h)]

theorem mapErase_mapInsert {α : Type} (m : List (String × α)) (k : String) (v : α) :
    mapErase (mapInsert m k v) k = mapErase m k := by
  rw [mapInsert, mapErase_cons, if_pos rfl]
  induction m with
  | nil => rfl
  | cons p rest ih =>
    obtain ⟨a, b⟩ := p
    by_cases hk : a = k
    · simp [mapErase_cons, hk, ih]
    · simp [mapErase_cons, hk, ih]

theorem mapLookup_mapInsert_self {α : Type} (m : List (String × α)) (k : String) (v : α) :
    mapLookup (mapInsert m k v) k = some v := by
  rw [mapInsert, mapLookup_cons, if_pos rfl]

theorem mapLookup_mapErase_ne {α : Type} (m : List (String × α)) (k k' : String)
    (h : k' ≠ k) : mapLookup (mapErase m k) k' = mapLookup m k' := by
  induction m with
  | nil => rfl
  | cons p rest ih =>
    obtain ⟨a, b⟩ := p
    by_cases hk : a = k
    · have hk' : ¬ a = k' := by rw [hk]; exact fun hh => h hh.symm
      rw [mapErase_cons, if_pos hk, ih, mapLookup_cons, if_neg hk']
    · rw [mapErase_cons, if_neg hk, mapLookup_cons, mapLookup_cons, ih]

theorem mapLookup_mapInsert_ne {α : Type} (m : List (String × α)) (k k' : String) (v : α)
    (h : k' ≠ k) : mapLookup (mapInsert m k v) k' = mapLookup m k' := by
  rw [mapInsert, mapLookup_cons, if_neg (fun hh => h hh.symm),
    mapLookup_mapErase_ne m k k' h]

/-! ### Persistence round trip (claim C6) -/

/-- C6. For every repository variant, the factory registered for the type
tag of the handle `Persist` produces exists, returns no error, and
reconstructs a repository field-for-field equal to the original on all
persisted attributes (the git client capability is not a field of the
embedding, matching its `json:"-"` exclusion). -/
theorem repo_persist_roundtrip (r : Repo) :
    (RepoFactories r.persist.ptype).map (fun f => f r.persist) =
      some (some r, none) := by
  cases r with
  | localR l =>
    simp [Repo.persist, LocalRepo.persist, RepoFactories, localRepoTypeName,
      gitRepoTypeName, LocalRepoFactory, marshalLocalRepo, unmarshalLocalRepo,
      jsonGetStr, jsonLookup, List.find?, Bind.bind, Except.bind]
  | gitR g =>
    simp [Repo.persist, GitRepo.persist, RepoFactories, gitRepoTypeName,
      GitRepoFactory, marshalGitRepo, unmarshalGitRepo,
      jsonGetStr, jsonLookup, List.find?, Bind.bind, Except.bind]

/-! ### Cache Add/Remove (claims C4, C5, C10) -/

/-- C5. `Add` on a taken name returns the existing entry together with
the already-exists error, mutates nothing and never calls `Save`. -/
theorem RepoCache.add_duplicate (c : RepoCache) (m : List (String × CachedRepo))
    (name : String) (r : CachedRepo) (g : GitRepo) (saveErr : Option String)
    (hm : c.repos = some m) (hr : mapLookup m name = some r) :
    RepoCache.add c saveErr name g =
      .returned ⟨some r, some .alreadyExists, c, false⟩ := by
  simp [RepoCache.add, RepoCache.find, hm, hr]

/-- C10. On a freshly constructed cache whose internal map was never
initialised, every name reads as absent yet `Add` panics at the `nil`-map
insertion instead of returning an error; `Load` with a successful
read-and-decode initialises the map, and `Add` on an initialised map
never panics. -/
theorem RepoCache.add_nil_map_panics (c : RepoCache) (saveErr : Option String)
    (name : String) (g : GitRepo) (hc : c.repos = none) :
    RepoCache.add c saveErr name g = .panicked
    ∧ c.find name = none
    ∧ (∀ cfg, ((RepoCache.load c (.ok cfg)).1).repos ≠ none)
    ∧ (∀ c2 m2, c2.repos = some m2 →
        RepoCache.add c2 saveErr name g ≠ .panicked) := by
  refine ⟨?_, ?_, ?_, ?_⟩
  · simp [RepoCache.add, RepoCache.find, hc]
  · simp [RepoCache.find, hc]
  · intro cfg
    cases cfg with
    | none => simp [RepoCache.load]
    | some entries => simp [RepoCache.load]
  · intro c2 m2 hm2
    cases hl : mapLookup m2 name with
    | none =>
      cases saveErr <;> simp [RepoCache.add, RepoCache.find, hm2, hl]
    | some r => simp [RepoCache.add, RepoCache.find, hm2, hl]

/-- Closed witness for `RepoCache.add_nil_map_panics`. -/
theorem RepoCache.add_nil_map_panics_witness :
    (RepoCache.mk "base" none).repos = none
    ∧ RepoCache.add (RepoCache.mk "base" none) none "n" { url := "u" } = .panicked := by
  have h := RepoCache.add_nil_map_panics (RepoCache.mk "base" none) none "n"
    { url := "u" } rfl
  exact ⟨rfl, h.1⟩

/-- Closed witness for `RepoCache.add_duplicate`. -/
theorem RepoCache.add_duplicate_witness :
    RepoCache.add
        (RepoCache.mk "b" (some [("n", ⟨"n", { url := "u" }, "b/repos/n"⟩)]))
        (some "disk full") "n" { url := "v" } =
      .returned ⟨some ⟨"n", { url := "u" }, "b/repos/n"⟩, some .alreadyExists,
        RepoCache.mk "b" (some [("n", ⟨"n", { url := "u" }, "b/repos/n"⟩)]), false⟩ :=
  RepoCache.add_duplicate
    (RepoCache.mk "b" (some [("n", ⟨"n", { url := "u" }, "b/repos/n"⟩)]))
    [("n", ⟨"n", { url := "u" }, "b/repos/n"⟩)] "n"
    ⟨"n", { url := "u" }, "b/repos/n"⟩ { url := "v" } (some "disk full") rfl
    (by decide)

/-- The error component of a Go-style `(result, error)` pair built from a
client call. -/
def execErr : Except GitError String → Option GitError
  | .ok _ => none
  | .error e => some e

/-- The returned error of an `Add` outcome (`none` for the panic, which
returns nothing at all). -/
def AddOutcome.errOf : AddOutcome → Option CacheErr
  | .panicked => none
  | .returned r => r.err

/-- The post-call state of an `Add` outcome, the pre-call state standing
in for the panic. -/
def AddOutcome.stateOf (c : RepoCache) : AddOutcome → RepoCache
  | .panicked => c
  | .returned r => r.state

/-- C4. With an initialised map, `Add` and `Remove` are all-or-nothing:
on every error return the name-to-repo map is unchanged — `Add` returns
the literal pre-call state, `Remove` a state whose every lookup agrees
with the pre-call one. -/
theorem RepoCache.add_remove_rollback (c : RepoCache)
    (m : List (String × CachedRepo)) (e name : String) (g : GitRepo)
    (hm : c.repos = some m) :
    RepoCache.add c (some e) name g ≠ .panicked
    ∧ ((RepoCache.add c (some e) name g).errOf.isSome →
        (RepoCache.add c (some e) name g).stateOf c = c)
    ∧ ((RepoCache.remove c (some e) name).err.isSome →
        ∀ k, ((RepoCache.remove c (some e) name).state).find k = c.find k) := by
  have hstate : ({ c with repos := some m } : RepoCache) = c := by
    cases c; simp_all
  cases hl : mapLookup m name with
  | some r =>
    refine ⟨?_, ?_, ?_⟩
    · simp [RepoCache.add, RepoCache.find, hm, hl]
    · intro _
      simp [RepoCache.add, RepoCache.find, hm, hl, AddOutcome.stateOf]
    · intro _ k
      simp only [RepoCache.remove, hm, hl]
      by_cases hk : k = name
      · subst hk
        simp [RepoCache.find, hm, mapLookup_mapInsert_self, hl]
      · simp [RepoCache.find, hm,
          mapLookup_mapInsert_ne _ _ _ _ hk, mapLookup_mapErase_ne _ _ _ hk]
  | none =>
    refine ⟨?_, ?_, ?_⟩
    · simp [RepoCache.add, RepoCache.find, hm, hl]
    · intro _
      simp only [RepoCache.add, RepoCache.find, hm, hl, AddOutcome.stateOf]
      rw [mapErase_mapInsert, mapErase_of_lookup_none m name hl, hstate]
    · intro habs
      simp [RepoCache.remove, hm, hl] at habs

/-- Closed witness for `RepoCache.add_remove_rollback`. -/
theorem RepoCache.add_remove_rollback_witness :
    RepoCache.add (RepoCache.mk "b" (some [("a", ⟨"a", { url := "u" }, "b/repos/a"⟩)]))
        (some "disk full") "a" { url := "v" } ≠ .panicked
    ∧ ((RepoCache.remove
          (RepoCache.mk "b" (some [("a", ⟨"a", { url := "u" }, "b/repos/a"⟩)]))
          (some "disk full") "a").state).find "a" =
        (RepoCache.mk "b" (some [("a", ⟨"a", { url := "u" }, "b/repos/a"⟩)])).find "a" := by
  have h := RepoCache.add_remove_rollback
    (RepoCache.mk "b" (some [("a", ⟨"a", { url := "u" }, "b/repos/a"⟩)]))
    [("a", ⟨"a", { url := "u" }, "b/repos/a"⟩)] "disk full" "a" { url := "v" } rfl
  exact ⟨h.1, h.2.2 (by decide) "a"⟩

/-! ### URL detection (claim C2) -/

/-- The remote-probe oracle of the C2 test vector: `ls-remote` succeeds
exactly on a candidate remote ending in `group/project.git` and rejects
every other invocation. -/
def scpOracle : GitClient := fun args =>
  match args with
  | ["ls-remote", u] =>
    if strHasSuffix u "group/project.git" then .ok ""
    else .error ⟨"", "remote not found"⟩
  | _ => .error ⟨"", "unexpected arguments"⟩

/-- C2. On `git@example.com:group/project.git/sub/dir` with the oracle
above, `Detect` takes the SCP-like branch (protocol `ssh`), the greedy
probe rejects the shorter candidate `git@example.com:group` and accepts
`git@example.com:group/project.git`, fixing `RepoName`, `Remote` and
`Path` accordingly. -/
theorem GitRepo.detect_scp_greedy_probe :
    execOk (scpOracle ["ls-remote", "git@example.com:group"]) = false
    ∧ GitRepo.detect scpOracle
        { url := "git@example.com:group/project.git/sub/dir" } =
      .ok { url := "git@example.com:group/project.git/sub/dir",
            protocol := "ssh", repoName := "group/project.git",
            remote := "git@example.com:group/project.git",
            path := "/sub/dir" } := by
  decide

/-! ### Sync recovery (claim C1) -/

/-- C1. For a nonempty target directory, `Sync` first probes with
`LatestCommit`; when the probe and the pull both succeed it returns no
error and never removes the directory; when either fails it removes the
whole directory, clones the detected remote, and returns the clone's
error as its result; a `nil` result means the last git operation — the
verifying `LatestCommit` or the `Clone` — succeeded. -/
theorem GitRepo.sync_recovery (client : GitClient) (remote dir : String)
    (hdir : dir ≠ "") :
    ∃ evs err, GitRepo.sync client remote dir = .finished evs err
      ∧ evs.head? = some (.exec (latestCommitArgs dir))
      ∧ (execOk (client (latestCommitArgs dir)) = true ∧
          execOk (client (pullArgs dir)) = true →
            err = none ∧ SyncEvent.removeAll dir ∉ evs)
      ∧ (execOk (client (latestCommitArgs dir)) = false ∨
          execOk (client (pullArgs dir)) = false →
            (∃ pre, evs = pre ++ [.removeAll dir, .exec (cloneArgs dir remote)])
            ∧ err = execErr (client (cloneArgs dir remote)))
      ∧ (err = none →
          (evs.getLast? = some (.exec (latestCommitArgs dir)) ∧
            execOk (client (latestCommitArgs dir)) = true)
          ∨ (evs.getLast? = some (.exec (cloneArgs dir remote)) ∧
            execOk (client (cloneArgs dir remote)) = true)) := by
  cases hc1 : client (latestCommitArgs dir) with
  | ok s1 =>
    cases hc2 : client (pullArgs dir) with
    | ok s2 =>
      refine ⟨[.exec (latestCommitArgs dir), .exec (pullArgs dir),
        .exec (latestCommitArgs dir)], none,
        by simp [GitRepo.sync, hdir, hc1, hc2], by simp, ?_, ?_, ?_⟩
      · intro _
        simp
      · intro habs
        simp [execOk, hc1, hc2] at habs
      · intro _
        left
        simp [execOk, hc1]
    | error e2 =>
      refine ⟨[.exec (latestCommitArgs dir), .exec (pullArgs dir),
        .removeAll dir, .exec (cloneArgs dir remote)],
        execErr (client (cloneArgs dir remote)), ?_, by simp, ?_, ?_, ?_⟩
      · cases hc3 : client (cloneArgs dir remote) <;>
          simp [GitRepo.sync, syncFallback, hdir, hc1, hc2, hc3, execErr]
      · intro habs
        simp [execOk, hc2] at habs
      · intro _
        exact ⟨⟨[.exec (latestCommitArgs dir), .exec (pullArgs dir)], by simp⟩, rfl⟩
      · intro herr
        right
        cases hc3 : client (cloneArgs dir remote) with
        | ok s3 => simp [execOk]
        | error e3 => rw [hc3] at herr; simp [execErr] at herr
  | error e1 =>
    refine ⟨[.exec (latestCommitArgs dir), .removeAll dir,
      .exec (cloneArgs dir remote)],
      execErr (client (cloneArgs dir remote)), ?_, by simp, ?_, ?_, ?_⟩
    · cases hc3 : client (cloneArgs dir remote) <;>
        simp [GitRepo.sync, syncFallback, hdir, hc1, hc3, execErr]
    · intro habs
      simp [execOk, hc1] at habs
    · intro _
      exact ⟨⟨[.exec (latestCommitArgs dir)], by simp⟩, rfl⟩
    · intro herr
      right
      cases hc3 : client (cloneArgs dir remote) with
      | ok s3 => simp [execOk]
      | error e3 => rw [hc3] at herr; simp [execErr] at herr

/-- Closed witness for `GitRepo.sync_recovery`, at an always-failing
client (the re-clone path). -/
theorem GitRepo.sync_recovery_witness :
    ("d" : String) ≠ ""
    ∧ (∃ evs err,
        GitRepo.sync (fun _ => .error ⟨"", "boom"⟩) "r" "d" = .finished evs err
        ∧ evs.head? = some (.exec (latestCommitArgs "d"))
        ∧ (execOk ((fun _ => .error ⟨"", "boom"⟩ : GitClient) (latestCommitArgs "d")) = true ∧
            execOk ((fun _ => .error ⟨"", "boom"⟩ : GitClient) (pullArgs "d")) = true →
              err = none ∧ SyncEvent.removeAll "d" ∉ evs)
        ∧ (execOk ((fun _ => .error ⟨"", "boom"⟩ : GitClient) (latestCommitArgs "d")) = false ∨
            execOk ((fun _ => .error ⟨"", "boom"⟩ : GitClient) (pullArgs "d")) = false →
              (∃ pre, evs = pre ++ [.removeAll "d", .exec (cloneArgs "d" "r")])
              ∧ err = execErr ((fun _ => .error ⟨"", "boom"⟩ : GitClient) (cloneArgs "d" "r")))
        ∧ (err = none →
            (evs.getLast? = some (.exec (latestCommitArgs "d")) ∧
              execOk ((fun _ => .error ⟨"", "boom"⟩ : GitClient) (latestCommitArgs "d")) = true)
            ∨ (evs.getLast? = some (.exec (cloneArgs "d" "r")) ∧
              execOk ((fun _ => .error ⟨"", "boom"⟩ : GitClient) (cloneArgs "d" "r")) = true))) :=
  ⟨by decide, GitRepo.sync_recovery (fun _ => .error ⟨"", "boom"⟩) "r" "d" (by decide)⟩

/-! ### Cache loading (claim C7) -/

/-- The factory error one config entry contributes: none when its type
tag has no registered factory, otherwise the error component of the
factory's result. -/
def factoryErrOf (h : PersistentHandle) : Option String :=
  match RepoFactories h.ptype with
  | none => none
  | some f => (f h).2

/-- The remote repository one config entry resolves to, if any: requires
a registered factory, an error-free factory result, a non-nil repository
and the `RemoteRepo` capability. -/
def resolvedRemote (h : PersistentHandle) : Option GitRepo :=
  match RepoFactories h.ptype with
  | none => none
  | some f =>
    match f h with
    | (_, some _) => none
    | (rp, none) => rp.bind Repo.asRemote

theorem loadLoop_errs (baseDir : String)
    (entries : List (String × PersistentHandle))
    (m : List (String × CachedRepo)) :
    (loadLoop baseDir entries m).2 =
      entries.filterMap (fun nh => factoryErrOf nh.2) := by
  induction entries generalizing m with
  | nil => rfl
  | cons nh rest ih =>
    obtain ⟨n, h⟩ := nh
    cases hreg : RepoFactories h.ptype with
    | none => simp [loadLoop, hreg, factoryErrOf, ih]
    | some f =>
      rcases hf : f h with ⟨rp, er⟩
      cases er with
      | some e => simp [loadLoop, hreg, hf, factoryErrOf, ih]
      | none =>
        cases rp with
        | none => simp [loadLoop, hreg, hf, factoryErrOf, ih]
        | some repo =>
          cases hrem : repo.asRemote with
          | none => simp [loadLoop, hreg, hf, hrem, factoryErrOf, ih]
          | some g => simp [loadLoop, hreg, hf, hrem, factoryErrOf, ih]

theorem loadLoop_lookup (baseDir : String)
    (entries : List (String × PersistentHandle))
    (m : List (String × CachedRepo))
    (hnd : (entries.map Prod.fst).Nodup) (k : String) :
    mapLookup (loadLoop baseDir entries m).1 k =
      match entries.find? (fun nh => nh.1 = k) with
      | some nh =>
        match resolvedRemote nh.2 with
        | some g => some ⟨k, g, join3 baseDir cacheReposDirName k⟩
        | none => mapLookup m k
      | none => mapLookup m k := by
  induction entries generalizing m with
  | nil => rfl
  | cons nh rest ih =>
    obtain ⟨n, h⟩ := nh
    rw [List.map_cons, List.nodup_cons] at hnd
    obtain ⟨hn, hrest⟩ := hnd
    have hfr : rest.find? (fun nh => nh.1 = n) = none := by
      rw [List.find?_eq_none]
      intro x hx
      simp only [decide_eq_true_eq]
      intro hxn
      have hxm : x.1 ∈ rest.map Prod.fst := List.mem_map_of_mem Prod.fst hx
      rw [hxn] at hxm
      exact hn hxm
    by_cases hk : n = k
    · subst hk
      cases hreg : RepoFactories h.ptype with
      | none =>
        simp only [loadLoop, hreg, ih _ hrest]
        simp [List.find?_cons, hfr, resolvedRemote, hreg]
      | some f =>
        rcases hf : f h with ⟨rp, er⟩
        cases er with
        | some e =>
          simp only [loadLoop, hreg, hf, ih _ hrest]
          simp [List.find?_cons, hfr, resolvedRemote, hreg, hf]
        | none =>
          cases rp with
          | none =>
            simp only [loadLoop, hreg, hf, ih _ hrest]
            simp [List.find?_cons, hfr, resolvedRemote, hreg, hf]
          | some repo =>
            cases hrem : repo.asRemote with
            | none =>
              simp only [loadLoop, hreg, hf, hrem, ih _ hrest]
              simp [List.find?_cons, hfr, resolvedRemote, hreg, hf, hrem]
            | some g =>
              simp only [loadLoop, hreg, hf, hrem, ih _ hrest]
              simp [List.find?_cons, hfr, resolvedRemote, hreg, hf, hrem,
                mapLookup_mapInsert_self]
    · have hkb : ¬ ((n, h).1 = k) := hk
      cases hreg : RepoFactories h.ptype with
      | none =>
        simp only [loadLoop, hreg, ih _ hrest]
        simp [List.find?_cons, hkb]
      | some f =>
        rcases hf : f h with ⟨rp, er⟩
        cases er with
        | some e =>
          simp only [loadLoop, hreg, hf, ih _ hrest]
          simp [List.find?_cons, hkb]
        | none =>
          cases rp with
          | none =>
            simp only [loadLoop, hreg, hf, ih _ hrest]
            simp [List.find?_cons, hkb]
          | some repo =>
            cases hrem : repo.asRemote with
            | none =>
              simp only [loadLoop, hreg, hf, hrem, ih _ hrest]
              simp [List.find?_cons, hkb]
            | some g =>
              simp only [loadLoop, hreg, hf, hrem, ih _ hrest]
              have hne : mapLookup (mapInsert m n ⟨n, g, join3 baseDir cacheReposDirName n⟩) k = mapLookup m k :=
                mapLookup_mapInsert_ne _ _ _ _ (fun hh => hk hh.symm)
              cases hfk : rest.find? (fun nh => nh.1 = k) with
              | none => simp [List.find?_cons, hkb, hfk, hne]
              | some nh' =>
                cases hrr : resolvedRemote nh'.2 with
                | none => simp [List.find?_cons, hkb, hfk, hrr, hne]
                | some g' => simp [List.find?_cons, hkb, hfk, hrr]

/-- C7. `Load` attempts every decoded entry: unregistered type tags and
non-remote repositories are skipped without contributing an error,
per-entry factory errors are collected in iteration order without
aborting the loop, every resolved remote entry is stored under its name
with `LocalDir = join(BaseDir, "repos", name)`, and the aggregate error
is `nil` exactly when no factory error occurred. -/
theorem RepoCache.load_entry_aggregation (baseDir : String)
    (entries : List (String × PersistentHandle))
    (hnd : (entries.map Prod.fst).Nodup) :
    (loadLoop baseDir entries []).2 =
        entries.filterMap (fun nh => factoryErrOf nh.2)
    ∧ (∀ n, mapLookup (loadLoop baseDir entries []).1 n =
        (entries.find? (fun nh => nh.1 = n)).bind
          (fun nh => (resolvedRemote nh.2).map
            (fun g => ⟨n, g, join3 baseDir cacheReposDirName n⟩)))
    ∧ (∀ c : RepoCache, c.baseDir = baseDir → c.repos = none →
        ((RepoCache.load c (.ok (some entries))).2 = none ↔
          entries.filterMap (fun nh => factoryErrOf nh.2) = [])) := by
  refine ⟨loadLoop_errs baseDir entries [], ?_, ?_⟩
  · intro n
    rw [loadLoop_lookup baseDir entries [] hnd n]
    cases hf : entries.find? (fun nh => nh.1 = n) with
    | none => rfl
    | some nh =>
      cases hr : resolvedRemote nh.2 with
      | none => simp [mapLookup, hr]
      | some g => simp [hr]
  · intro c hbase hrepos
    simp only [RepoCache.load, hrepos, Option.getD, hbase,
      loadLoop_errs baseDir entries []]
    by_cases he : entries.filterMap (fun nh => factoryErrOf nh.2) = [] <;>
      simp [he]

/-- A config with one loadable git entry, one local (non-remote) entry,
one unregistered entry and one git entry with an undecodable payload. -/
def loadEntriesExample : List (String × PersistentHandle) :=
  [("g", GitRepo.persist
      { url := "u", protocol := "ssh", repoName := "nm", remote := "rm", path := "p" }),
   ("l", LocalRepo.persist ⟨"bd", "pp"⟩),
   ("u", ⟨"unknown", .str "x"⟩),
   ("bad", ⟨"git", .str "oops"⟩)]

/-- Closed witness for `RepoCache.load_entry_aggregation`. -/
theorem RepoCache.load_entry_aggregation_witness :
    (loadLoop "base" loadEntriesExample []).2 =
        ["json: cannot unmarshal string into GitRepo"]
    ∧ mapLookup (loadLoop "base" loadEntriesExample []).1 "g" =
        some ⟨"g", GitRepo.mk "u" "ssh" "nm" "rm" "p", "base/repos/g"⟩
    ∧ mapLookup (loadLoop "base" loadEntriesExample []).1 "l" = none
    ∧ mapLookup (loadLoop "base" loadEntriesExample []).1 "u" = none := by
  have h := RepoCache.load_entry_aggregation "base" loadEntriesExample (by decide)
  refine ⟨?_, ?_, ?_, ?_⟩
  · rw [h.1]; decide
  · rw [h.2.1 "g"]; decide
  · rw [h.2.1 "l"]; decide
  · rw [h.2.1 "u"]; decide

/-! ### Walker filters (claim C9) -/

theorem runFilters_append_reject (fs1 fs2 : List RepoWalkerFilter)
    (f : RepoWalkerFilter) (item : WalkingItem)
    (hchain : runFilters fs1 item = .ok true) (hrej : f item = .ok false) :
    runFilters (fs1 ++ f :: fs2) item = .ok false := by
  induction fs1 with
  | nil => simp [runFilters, hrej]
  | cons g rest ih =>
    rw [runFilters] at hchain
    cases hg : g item with
    | error e => rw [hg] at hchain; exact absurd hchain (by simp)
    | ok b =>
      cases b with
      | false => rw [hg] at hchain; exact absurd hchain (by simp)
      | true =>
        rw [hg] at hchain
        simpa [runFilters, hg] using ih hchain

theorem visitEntries_skip (w : RepoWalker) (rname : String) (repo : Repo)
    (base : String) (e : FsEntry)
    (hrej : runFilters w.filters (entryItem rname repo base e) = .ok false)
    (es1 es2 : List FsEntry) :
    visitEntries w rname repo base (es1 ++ e :: es2) =
      visitEntries w rname repo base (es1 ++ es2) := by
  induction es1 with
  | nil =>
    cases e with
    | file n => simp [visitEntries_cons_file, hrej]
    | dir dn ch => simp [visitEntries_cons_dir, hrej]
  | cons e' rest ih =>
    cases e' with
    | file n => simp only [List.cons_append, visitEntries_cons_file, ih]
    | dir dn ch => simp only [List.cons_append, visitEntries_cons_dir, ih]

theorem visitSubdirs_skip (w : RepoWalker) (rname : String) (repo : Repo)
    (base : String) (e : FsEntry)
    (hrej : runFilters w.filters (entryItem rname repo base e) = .ok false)
    (es1 es2 : List FsEntry) :
    visitSubdirs w rname repo base (es1 ++ e :: es2) =
      visitSubdirs w rname repo base (es1 ++ es2) := by
  induction es1 with
  | nil =>
    cases e with
    | file n => simp [visitSubdirs_cons_file]
    | dir dn ch =>
      have hne : ¬ (runFilters w.filters (entryItem rname repo base (.dir dn ch)) = .ok true) := by
        rw [hrej]; simp
      simp [visitSubdirs_cons_dir, hne]
  | cons e' rest ih =>
    cases e' with
    | file n => simp only [List.cons_append, visitSubdirs_cons_file, ih]
    | dir dn ch => simp only [List.cons_append, visitSubdirs_cons_dir, ih]

/-- C9. Filters run in registration order and the first rejection
short-circuits the rest of the chain; an entry rejected by the chain is
invisible to the walk — removing it from its directory leaves the entire
visit result (callback trace, opened directories, error) unchanged, so
neither it nor anything in its subtree is visited. -/
theorem walker_filter_short_circuit_and_prune
    (fs1 fs2 : List RepoWalkerFilter) (f : RepoWalkerFilter)
    (item : WalkingItem) (w : RepoWalker) (rname : String) (repo : Repo)
    (base : String) (es1 es2 : List FsEntry) (e : FsEntry)
    (hchain : runFilters fs1 item = .ok true) (hrej : f item = .ok false)
    (hrejE : runFilters w.filters (entryItem rname repo base e) = .ok false) :
    runFilters (fs1 ++ f :: fs2) item = .ok false
    ∧ visitDir w rname repo base (es1 ++ e :: es2) =
        visitDir w rname repo base (es1 ++ es2) := by
  refine ⟨runFilters_append_reject fs1 fs2 f item hchain hrej, ?_⟩
  rw [visitDir, visitDir, visitEntries_skip w rname repo base e hrejE es1 es2,
    visitSubdirs_skip w rname repo base e hrejE es1 es2]

/-- The concrete walker of the C9 witness: one filter rejecting entries
named `skip`, depth-first, no path prefix. -/
def pruneW : RepoWalker :=
  ⟨fun _ => none, "", [fun it => .ok (it.name != "skip")], false⟩

/-- The concrete item of the C9 witness. -/
def pruneItem : WalkingItem :=
  ⟨"n", .localR ⟨"b", ""⟩, "b", "x", ⟨"x", false⟩⟩

/-- Closed witness for `walker_filter_short_circuit_and_prune`. -/
theorem walker_filter_short_circuit_and_prune_witness :
    runFilters [fun _ => (.ok true : Except String Bool)] pruneItem = .ok true
    ∧ (fun _ => (.ok false : Except String Bool)) pruneItem = .ok false
    ∧ runFilters pruneW.filters
        (entryItem "n" (.localR ⟨"b", ""⟩) "b" (.dir "skip" [.file "secret"])) =
        .ok false
    ∧ (runFilters
          ([fun _ => (.ok true : Except String Bool)] ++
            (fun _ => (.ok false : Except String Bool)) ::
              [fun _ => (.error "late" : Except String Bool)]) pruneItem =
        .ok false
      ∧ visitDir pruneW "n" (.localR ⟨"b", ""⟩) "b"
          ([.file "a"] ++ (.dir "skip" [.file "secret"]) :: [.file "b"]) =
        visitDir pruneW "n" (.localR ⟨"b", ""⟩) "b"
          ([.file "a"] ++ [.file "b"])) :=
  ⟨by decide, by decide, by decide,
    walker_filter_short_circuit_and_prune
      [fun _ => (.ok true : Except String Bool)]
      [fun _ => (.error "late" : Except String Bool)]
      (fun _ => (.ok false : Except String Bool)) pruneItem pruneW "n"
      (.localR ⟨"b", ""⟩) "b" [.file "a"] [.file "b"]
      (.dir "skip" [.file "secret"]) (by decide) (by decide) (by decide)⟩

/-! ### Walker paths and the path prefix (claim C8) -/

theorem string_empty_append (p : String) : "" ++ p = p := by
  cases p
  rfl

theorem filepathJoin_append (a b : String) : ∃ u, filepathJoin a b = a ++ u := by
  by_cases ha : a = ""
  · subst ha
    exact ⟨b, by rw [filepathJoin, if_pos rfl, string_empty_append]⟩
  · by_cases hb : b = ""
    · subst hb
      exact ⟨"", by rw [filepathJoin, if_neg ha, if_pos rfl]; simp⟩
    · exact ⟨"/" ++ b, by rw [filepathJoin, if_neg ha, if_neg hb,
        String.append_assoc]⟩

/-- `w` with its path prefix replaced. -/
def withPrefix (w : RepoWalker) (s : String) : RepoWalker :=
  { w with pathPrefix := s }

theorem withPrefix_filters (w : RepoWalker) (s : String) :
    (withPrefix w s).filters = w.filters := rfl

theorem withPrefix_walkerFn (w : RepoWalker) (s : String) :
    (withPrefix w s).walkerFn = w.walkerFn := rfl

theorem withPrefix_breadthFirst (w : RepoWalker) (s : String) :
    (withPrefix w s).breadthFirst = w.breadthFirst := rfl

theorem withPrefix_pathPrefix (w : RepoWalker) (s : String) :
    (withPrefix w s).pathPrefix = s := rfl

theorem assembleDir_prefix (w : RepoWalker) (s base : String)
    (r1s r2s r10 r20 : VisitResult)
    (h1t : r1s.trace = r10.trace)
    (h1o : r1s.opened = r10.opened.map (fun p => s ++ p))
    (h1e : r1s.err = r10.err)
    (h2t : r2s.trace = r20.trace)
    (h2o : r2s.opened = r20.opened.map (fun p => s ++ p))
    (h2e : r2s.err = r20.err) :
    (assembleDir (withPrefix w s) base r1s r2s).trace =
      (assembleDir (withPrefix w "") base r10 r20).trace
    ∧ (assembleDir (withPrefix w s) base r1s r2s).opened =
      ((assembleDir (withPrefix w "") base r10 r20).opened).map (fun p => s ++ p)
    ∧ (assembleDir (withPrefix w s) base r1s r2s).err =
      (assembleDir (withPrefix w "") base r10 r20).err := by
  rw [assembleDir, assembleDir, h1e]
  simp only [withPrefix_pathPrefix, withPrefix_breadthFirst]
  cases r10.err with
  | some msg =>
    simp [h1t, h1o, string_empty_append]
  | none =>
    cases hb : w.breadthFirst with
    | true =>
      simp [h1t, h1o, h2t, h2o, h2e, string_empty_append]
    | false =>
      simp [h1t, h1o, string_empty_append]

mutual

theorem visitEntries_prefix (w : RepoWalker) (s rname : String) (repo : Repo) :
    ∀ (base : String) (es : List FsEntry),
      (visitEntries (withPrefix w s) rname repo base es).trace =
        (visitEntries (withPrefix w "") rname repo base es).trace
      ∧ (visitEntries (withPrefix w s) rname repo base es).opened =
          ((visitEntries (withPrefix w "") rname repo base es).opened).map
            (fun p => s ++ p)
      ∧ (visitEntries (withPrefix w s) rname repo base es).err =
          (visitEntries (withPrefix w "") rname repo base es).err
  | base, [] => by simp [visitEntries_nil]
  | base, e :: rest => by
    have ihr := visitEntries_prefix w s rname repo base rest
    cases e with
    | file n =>
      rw [visitEntries_cons_file, visitEntries_cons_file]
      simp only [withPrefix_filters, withPrefix_walkerFn]
      cases hf : runFilters w.filters (entryItem rname repo base (.file n)) with
      | error msg => simp [hf]
      | ok b =>
        cases b with
        | false => simpa [hf] using ihr
        | true =>
          cases hw : w.walkerFn (entryItem rname repo base (.file n)) with
          | some msg => simp [hf, hw]
          | none => simp [hf, hw, ihr.1, ihr.2.1, ihr.2.2]
    | dir dn ch =>
      rw [visitEntries_cons_dir, visitEntries_cons_dir]
      simp only [withPrefix_filters, withPrefix_walkerFn, withPrefix_breadthFirst]
      cases hf : runFilters w.filters (entryItem rname repo base (.dir dn ch)) with
      | error msg => simp [hf]
      | ok b =>
        cases b with
        | false => simpa [hf] using ihr
        | true =>
          cases hw : w.walkerFn (entryItem rname repo base (.dir dn ch)) with
          | some msg => simp [hf, hw]
          | none =>
            cases hb : w.breadthFirst with
            | true => simp [hf, hw, hb, ihr.1, ihr.2.1, ihr.2.2]
            | false =>
              have ihe := visitEntries_prefix w s rname repo (filepathJoin base dn) ch
              have ihs := visitSubdirs_prefix w s rname repo (filepathJoin base dn) ch
              have hasm := assembleDir_prefix w s (filepathJoin base dn) _ _ _ _
                ihe.1 ihe.2.1 ihe.2.2 ihs.1 ihs.2.1 ihs.2.2
              simp only [hf, hw, hb]
              rw [hasm.2.2]
              cases herr : (assembleDir (withPrefix w "") (filepathJoin base dn)
                  (visitEntries (withPrefix w "") rname repo (filepathJoin base dn) ch)
                  (visitSubdirs (withPrefix w "") rname repo (filepathJoin base dn) ch)).err with
              | some msg =>
                simp [herr, hasm.1, hasm.2.1]
              | none =>
                simp [herr, hasm.1, hasm.2.1,
                  ihr.1, ihr.2.1, ihr.2.2]

theorem visitSubdirs_prefix (w : RepoWalker) (s rname : String) (repo : Repo) :
    ∀ (base : String) (es : List FsEntry),
      (visitSubdirs (withPrefix w s) rname repo base es).trace =
        (visitSubdirs (withPrefix w "") rname repo base es).trace
      ∧ (visitSubdirs (withPrefix w s) rname repo base es).opened =
          ((visitSubdirs (withPrefix w "") rname repo base es).opened).map
            (fun p => s ++ p)
      ∧ (visitSubdirs (withPrefix w s) rname repo base es).err =
          (visitSubdirs (withPrefix w "") rname repo base es).err
  | base, [] => by simp [visitSubdirs_nil]
  | base, .file n :: rest => by
    have ihr := visitSubdirs_prefix w s rname repo base rest
    simpa [visitSubdirs_cons_file] using ihr
  | base, .dir dn ch :: rest => by
    have ihr := visitSubdirs_prefix w s rname repo base rest
    have ihe := visitEntries_prefix w s rname repo (filepathJoin base dn) ch
    have ihs := visitSubdirs_prefix w s rname repo (filepathJoin base dn) ch
    have hasm := assembleDir_prefix w s (filepathJoin base dn) _ _ _ _
      ihe.1 ihe.2.1 ihe.2.2 ihs.1 ihs.2.1 ihs.2.2
    rw [visitSubdirs_cons_dir, visitSubdirs_cons_dir]
    simp only [withPrefix_filters]
    by_cases hyes : runFilters w.filters (entryItem rname repo base (.dir dn ch)) = .ok true
    · simp only [if_pos hyes]
      rw [hasm.2.2]
      cases herr : (assembleDir (withPrefix w "") (filepathJoin base dn)
          (visitEntries (withPrefix w "") rname repo (filepathJoin base dn) ch)
          (visitSubdirs (withPrefix w "") rname repo (filepathJoin base dn) ch)).err with
      | some msg =>
        simp [herr, hasm.1, hasm.2.1, hasm.2.2]
      | none =>
        simp [herr, hasm.1, hasm.2.1, hasm.2.2,
          ihr.1, ihr.2.1, ihr.2.2]
    · simp only [if_neg hyes]
      exact ihr

end

theorem mem_assembleDir_trace (w : RepoWalker) (b : String)
    (r1 r2 : VisitResult) (it : WalkingItem)
    (h : it ∈ (assembleDir w b r1 r2).trace) : it ∈ r1.trace ∨ it ∈ r2.trace := by
  rw [assembleDir] at h
  cases he : r1.err with
  | some msg => rw [he] at h; exact .inl h
  | none =>
    rw [he] at h
    cases hb : w.breadthFirst with
    | true =>
      rw [hb] at h
      simpa using List.mem_append.mp h
    | false => rw [hb] at h; exact .inl h

theorem path_suffix_lift (base dn p : String)
    (h : ∃ t, p = filepathJoin base dn ++ t) : ∃ t, p = base ++ t := by
  obtain ⟨t, ht⟩ := h
  obtain ⟨u, hu⟩ := filepathJoin_append base dn
  exact ⟨u ++ t, by rw [ht, hu, String.append_assoc]⟩

mutual

theorem visitEntries_path_suffix (w : RepoWalker) (rname : String) (repo : Repo) :
    ∀ (base : String) (es : List FsEntry) (it : WalkingItem),
      it ∈ (visitEntries w rname repo base es).trace → ∃ t, it.path = base ++ t
  | base, [], it => by simp [visitEntries_nil]
  | base, e :: rest, it => by
    intro h
    cases e with
    | file n =>
      rw [visitEntries_cons_file] at h
      cases hf : runFilters w.filters (entryItem rname repo base (.file n)) with
      | error msg => simp [hf] at h
      | ok b =>
        cases b with
        | false =>
          simp only [hf] at h
          exact visitEntries_path_suffix w rname repo base rest it h
        | true =>
          cases hw : w.walkerFn (entryItem rname repo base (.file n)) with
          | some msg =>
            simp [hf, hw] at h
            exact ⟨"", by simp [h, entryItem]⟩
          | none =>
            simp [hf, hw] at h
            cases h with
            | inl heq => exact ⟨"", by simp [heq, entryItem]⟩
            | inr hm => exact visitEntries_path_suffix w rname repo base rest it hm
    | dir dn ch =>
      rw [visitEntries_cons_dir] at h
      cases hf : runFilters w.filters (entryItem rname repo base (.dir dn ch)) with
      | error msg => simp [hf] at h
      | ok b =>
        cases b with
        | false =>
          simp only [hf] at h
          exact visitEntries_path_suffix w rname repo base rest it h
        | true =>
          cases hw : w.walkerFn (entryItem rname repo base (.dir dn ch)) with
          | some msg =>
            simp [hf, hw] at h
            exact ⟨"", by simp [h, entryItem]⟩
          | none =>
            cases hb : w.breadthFirst with
            | true =>
              simp [hf, hw, hb] at h
              cases h with
              | inl heq => exact ⟨"", by simp [heq, entryItem]⟩
              | inr hm => exact visitEntries_path_suffix w rname repo base rest it hm
            | false =>
              simp only [hf, hw, hb, if_false] at h
              cases herr : (assembleDir w (filepathJoin base dn)
                  (visitEntries w rname repo (filepathJoin base dn) ch)
                  (visitSubdirs w rname repo (filepathJoin base dn) ch)).err with
              | some msg =>
                simp [herr] at h
                rcases h with heq | hm
                · exact ⟨"", by simp [heq, entryItem]⟩
                · cases mem_assembleDir_trace _ _ _ _ _ hm with
                  | inl h1 =>
                    exact path_suffix_lift base dn it.path
                      (visitEntries_path_suffix w rname repo (filepathJoin base dn) ch it h1)
                  | inr h2 =>
                    exact path_suffix_lift base dn it.path
                      (visitSubdirs_path_suffix w rname repo (filepathJoin base dn) ch it h2)
              | none =>
                simp [herr] at h
                rcases h with heq | hmd | hmr
                · exact ⟨"", by simp [heq, entryItem]⟩
                · cases mem_assembleDir_trace _ _ _ _ _ hmd with
                  | inl h1 =>
                    exact path_suffix_lift base dn it.path
                      (visitEntries_path_suffix w rname repo (filepathJoin base dn) ch it h1)
                  | inr h2 =>
                    exact path_suffix_lift base dn it.path
                      (visitSubdirs_path_suffix w rname repo (filepathJoin base dn) ch it h2)
                · exact visitEntries_path_suffix w rname repo base rest it hmr

theorem visitSubdirs_path_suffix (w : RepoWalker) (rname : String) (repo : Repo) :
    ∀ (base : String) (es : List FsEntry) (it : WalkingItem),
      it ∈ (visitSubdirs w rname repo base es).trace → ∃ t, it.path = base ++ t
  | base, [], it => by simp [visitSubdirs_nil]
  | base, .file n :: rest, it => by
    intro h
    rw [visitSubdirs_cons_file] at h
    exact visitSubdirs_path_suffix w rname repo base rest it h
  | base, .dir dn ch :: rest, it => by
    intro h
    rw [visitSubdirs_cons_dir] at h
    by_cases hyes : runFilters w.filters (entryItem rname repo base (.dir dn ch)) = .ok true
    · simp only [if_pos hyes] at h
      cases herr : (assembleDir w (filepathJoin base dn)
          (visitEntries w rname repo (filepathJoin base dn) ch)
          (visitSubdirs w rname repo (filepathJoin base dn) ch)).err with
      | some msg =>
        simp only [if_pos hyes, herr] at h
        cases mem_assembleDir_trace _ _ _ _ _ h with
        | inl h1 =>
          exact path_suffix_lift base dn it.path
            (visitEntries_path_suffix w rname repo (filepathJoin base dn) ch it h1)
        | inr h2 =>
          exact path_suffix_lift base dn it.path
            (visitSubdirs_path_suffix w rname repo (filepathJoin base dn) ch it h2)
      | none =>
        simp [herr] at h
        rcases h with hmd | hmr
        · cases mem_assembleDir_trace _ _ _ _ _ hmd with
          | inl h1 =>
            exact path_suffix_lift base dn it.path
              (visitEntries_path_suffix w rname repo (filepathJoin base dn) ch it h1)
          | inr h2 =>
            exact path_suffix_lift base dn it.path
              (visitSubdirs_path_suffix w rname repo (filepathJoin base dn) ch it h2)
        · exact visitSubdirs_path_suffix w rname repo base rest it hmr
    · simp only [if_neg hyes] at h
      exact visitSubdirs_path_suffix w rname repo base rest it h

end

/-- C8 (amended). The `Path` recorded in a `WalkingItem` is the walked
directory's logical path starting at — and including — the repository's
base path (`repo.BasePath()` joined with the relative directory), not the
path relative to the base; the optional `PathPrefix` changes only the
filesystem paths handed to the directory opens (each opened path gains
exactly the prefix) and never the recorded `Path` values. -/
theorem walker_item_path_and_prefix_spec (w : RepoWalker) (rname : String)
    (repo : Repo) (base : String) (es : List FsEntry) (s : String) :
    (visitDir (withPrefix w s) rname repo base es).trace =
      (visitDir (withPrefix w "") rname repo base es).trace
    ∧ (visitDir (withPrefix w s) rname repo base es).opened =
      ((visitDir (withPrefix w "") rname repo base es).opened).map (fun p => s ++ p)
    ∧ ∀ it ∈ (visitDir w rname repo base es).trace, ∃ t, it.path = base ++ t := by
  have ihe := visitEntries_prefix w s rname repo base es
  have ihs := visitSubdirs_prefix w s rname repo base es
  have hasm := assembleDir_prefix w s base _ _ _ _
    ihe.1 ihe.2.1 ihe.2.2 ihs.1 ihs.2.1 ihs.2.2
  refine ⟨hasm.1, hasm.2.1, ?_⟩
  intro it hmem
  rw [visitDir] at hmem
  cases mem_assembleDir_trace _ _ _ _ _ hmem with
  | inl h1 => exact visitEntries_path_suffix w rname repo base es it h1
  | inr h2 => exact visitSubdirs_path_suffix w rname repo base es it h2

/-- A depth-first walker with no filters, no prefix and an always-ok
callback, used by the concrete walker theorems. -/
def plainDfW : RepoWalker := ⟨fun _ => none, "", [], false⟩

/-- C8 counterexample: for a repository whose base path is `b` and a tree
with a single file at the base, the recorded `Path` of the visited item
is `b` — the base path itself — and not the path of the containing
directory relative to the base (`""`, or `.` in its other spelling). -/
theorem walker_item_path_not_base_relative :
    (RepoWalker.visit plainDfW "n" (.localR ⟨"b", ""⟩) [.file "f"]).trace.map
        (fun it => it.path) = ["b"]
    ∧ ¬ ((RepoWalker.visit plainDfW "n" (.localR ⟨"b", ""⟩)
          [.file "f"]).trace.map (fun it => it.path) = [""])
    ∧ ¬ ((RepoWalker.visit plainDfW "n" (.localR ⟨"b", ""⟩)
          [.file "f"]).trace.map (fun it => it.path) = ["."]) := by
  decide

/-- Closed witness for `walker_item_path_and_prefix_spec`. -/
theorem walker_item_path_and_prefix_spec_witness :
    ((visitDir (withPrefix plainDfW "/root") "n" (.localR ⟨"b", ""⟩) "b"
        [.dir "d" [.file "f"]]).trace =
      (visitDir (withPrefix plainDfW "") "n" (.localR ⟨"b", ""⟩) "b"
        [.dir "d" [.file "f"]]).trace
    ∧ (visitDir (withPrefix plainDfW "/root") "n" (.localR ⟨"b", ""⟩) "b"
        [.dir "d" [.file "f"]]).opened =
      ((visitDir (withPrefix plainDfW "") "n" (.localR ⟨"b", ""⟩) "b"
        [.dir "d" [.file "f"]]).opened).map (fun p => "/root" ++ p)
    ∧ ∀ it ∈ (visitDir plainDfW "n" (.localR ⟨"b", ""⟩) "b"
        [.dir "d" [.file "f"]]).trace, ∃ t, it.path = "b" ++ t) :=
  walker_item_path_and_prefix_spec plainDfW "n" (.localR ⟨"b", ""⟩) "b"
    [.dir "d" [.file "f"]] "/root"

/-! ### Breadth-first visiting order (claim C3) -/

mutual

/-- Well-formed entry: a nonempty name, recursively (real directory
entries always have nonempty names). -/
def goodE : FsEntry → Bool
  | .file n => n ≠ ""
  | .dir n es => n ≠ "" && goodL es

/-- Well-formed entry list. -/
def goodL : List FsEntry → Bool
  | [] => true
  | e :: rest => goodE e && goodL rest

end

theorem string_length_pos_of_ne (b : String) (hb : b ≠ "") : 0 < b.length := by
  cases b with
  | mk data =>
    cases data with
    | nil => exact absurd rfl hb
    | cons c cs => simp [String.length]

theorem filepathJoin_length_lt (a b : String) (hb : b ≠ "") :
    a.length < (filepathJoin a b).length := by
  have hbpos := string_length_pos_of_ne b hb
  rw [filepathJoin]
  by_cases ha : a = ""
  · simp [ha]
    omega
  · have hsl : ("/" : String).length = 1 := rfl
    simp [ha, hb, String.length_append]
    omega

theorem visitEntries_bfs_paths (w : RepoWalker) (rname : String) (repo : Repo)
    (base : String) (hb : w.breadthFirst = true) :
    ∀ (es : List FsEntry) (it : WalkingItem),
      it ∈ (visitEntries w rname repo base es).trace → it.path = base := by
  intro es
  induction es with
  | nil => intro it h; simp [visitEntries_nil] at h
  | cons e rest ih =>
    intro it h
    cases e with
    | file n =>
      rw [visitEntries_cons_file] at h
      cases hf : runFilters w.filters (entryItem rname repo base (.file n)) with
      | error msg => simp [hf] at h
      | ok b =>
        cases b with
        | false => simp only [hf] at h; exact ih it h
        | true =>
          cases hw : w.walkerFn (entryItem rname repo base (.file n)) with
          | some msg => simp [hf, hw] at h; simp [h, entryItem]
          | none =>
            simp [hf, hw] at h
            cases h with
            | inl heq => simp [heq, entryItem]
            | inr hm => exact ih it hm
    | dir dn ch =>
      rw [visitEntries_cons_dir] at h
      cases hf : runFilters w.filters (entryItem rname repo base (.dir dn ch)) with
      | error msg => simp [hf] at h
      | ok b =>
        cases b with
        | false => simp only [hf] at h; exact ih it h
        | true =>
          cases hw : w.walkerFn (entryItem rname repo base (.dir dn ch)) with
          | some msg => simp [hf, hw] at h; simp [h, entryItem]
          | none =>
            simp [hf, hw, hb] at h
            cases h with
            | inl heq => simp [heq, entryItem]
            | inr hm => exact ih it hm

mutual

theorem visitEntries_level (w : RepoWalker) (rname : String) (repo : Repo) :
    ∀ (base : String) (es : List FsEntry) (it : WalkingItem),
      goodL es = true → it ∈ (visitEntries w rname repo base es).trace →
      it.path = base ∨ base.length < it.path.length
  | base, [], it => by simp [visitEntries_nil]
  | base, e :: rest, it => by
    intro hg h
    have hg' : goodE e = true ∧ goodL rest = true := by
      simpa [goodL, Bool.and_eq_true] using hg
    cases e with
    | file n =>
      rw [visitEntries_cons_file] at h
      cases hf : runFilters w.filters (entryItem rname repo base (.file n)) with
      | error msg => simp [hf] at h
      | ok b =>
        cases b with
        | false =>
          simp only [hf] at h
          exact visitEntries_level w rname repo base rest it hg'.2 h
        | true =>
          cases hw : w.walkerFn (entryItem rname repo base (.file n)) with
          | some msg => simp [hf, hw] at h; exact .inl (by simp [h, entryItem])
          | none =>
            simp [hf, hw] at h
            cases h with
            | inl heq => exact .inl (by simp [heq, entryItem])
            | inr hm => exact visitEntries_level w rname repo base rest it hg'.2 hm
    | dir dn ch =>
      have hdn : dn ≠ "" ∧ goodL ch = true := by
        simpa [goodE, Bool.and_eq_true] using hg'.1
      have hjoin : base.length < (filepathJoin base dn).length :=
        filepathJoin_length_lt base dn hdn.1
      rw [visitEntries_cons_dir] at h
      cases hf : runFilters w.filters (entryItem rname repo base (.dir dn ch)) with
      | error msg => simp [hf] at h
      | ok b =>
        cases b with
        | false =>
          simp only [hf] at h
          exact visitEntries_level w rname repo base rest it hg'.2 h
        | true =>
          cases hw : w.walkerFn (entryItem rname repo base (.dir dn ch)) with
          | some msg => simp [hf, hw] at h; exact .inl (by simp [h, entryItem])
          | none =>
            cases hb : w.breadthFirst with
            | true =>
              simp [hf, hw, hb] at h
              cases h with
              | inl heq => exact .inl (by simp [heq, entryItem])
              | inr hm => exact visitEntries_level w rname repo base rest it hg'.2 hm
            | false =>
              simp only [hf, hw, hb, if_false] at h
              cases herr : (assembleDir w (filepathJoin base dn)
                  (visitEntries w rname repo (filepathJoin base dn) ch)
                  (visitSubdirs w rname repo (filepathJoin base dn) ch)).err with
              | some msg =>
                simp [herr] at h
                rcases h with heq | hm
                · exact .inl (by simp [heq, entryItem])
                · refine .inr ?_
                  cases mem_assembleDir_trace _ _ _ _ _ hm with
                  | inl h1 =>
                    cases visitEntries_level w rname repo (filepathJoin base dn) ch it hdn.2 h1 with
                    | inl hp => rw [hp]; exact hjoin
                    | inr hp => omega
                  | inr h2 =>
                    have := visitSubdirs_level w rname repo (filepathJoin base dn) ch it hdn.2 h2
                    omega
              | none =>
                simp [herr] at h
                rcases h with heq | hmd | hmr
                · exact .inl (by simp [heq, entryItem])
                · refine .inr ?_
                  cases mem_assembleDir_trace _ _ _ _ _ hmd with
                  | inl h1 =>
                    cases visitEntries_level w rname repo (filepathJoin base dn) ch it hdn.2 h1 with
                    | inl hp => rw [hp]; exact hjoin
                    | inr hp => omega
                  | inr h2 =>
                    have := visitSubdirs_level w rname repo (filepathJoin base dn) ch it hdn.2 h2
                    omega
                · exact visitEntries_level w rname repo base rest it hg'.2 hmr

theorem visitSubdirs_level (w : RepoWalker) (rname : String) (repo : Repo) :
    ∀ (base : String) (es : List FsEntry) (it : WalkingItem),
      goodL es = true → it ∈ (visitSubdirs w rname repo base es).trace →
      base.length < it.path.length
  | base, [], it => by simp [visitSubdirs_nil]
  | base, e :: rest, it => by
    intro hg h
    have hg' : goodE e = true ∧ goodL rest = true := by
      simpa [goodL, Bool.and_eq_true] using hg
    cases e with
    | file n =>
      rw [visitSubdirs_cons_file] at h
      exact visitSubdirs_level w rname repo base rest it hg'.2 h
    | dir dn ch =>
      have hdn : dn ≠ "" ∧ goodL ch = true := by
        simpa [goodE, Bool.and_eq_true] using hg'.1
      have hjoin : base.length < (filepathJoin base dn).length :=
        filepathJoin_length_lt base dn hdn.1
      rw [visitSubdirs_cons_dir] at h
      by_cases hyes : runFilters w.filters (entryItem rname repo base (.dir dn ch)) = .ok true
      · simp only [if_pos hyes] at h
        cases herr : (assembleDir w (filepathJoin base dn)
            (visitEntries w rname repo (filepathJoin base dn) ch)
            (visitSubdirs w rname repo (filepathJoin base dn) ch)).err with
        | some msg =>
          simp only [herr] at h
          cases mem_assembleDir_trace _ _ _ _ _ h with
          | inl h1 =>
            cases visitEntries_level w rname repo (filepathJoin base dn) ch it hdn.2 h1 with
            | inl hp => rw [hp]; exact hjoin
            | inr hp => omega
          | inr h2 =>
            have := visitSubdirs_level w rname repo (filepathJoin base dn) ch it hdn.2 h2
            omega
        | none =>
          simp [herr] at h
          rcases h with hmd | hmr
          · cases mem_assembleDir_trace _ _ _ _ _ hmd with
            | inl h1 =>
              cases visitEntries_level w rname repo (filepathJoin base dn) ch it hdn.2 h1 with
              | inl hp => rw [hp]; exact hjoin
              | inr hp => omega
            | inr h2 =>
              have := visitSubdirs_level w rname repo (filepathJoin base dn) ch it hdn.2 h2
              omega
          · exact visitSubdirs_level w rname repo base rest it hg'.2 hmr
      · simp only [if_neg hyes] at h
        exact visitSubdirs_level w rname repo base rest it hg'.2 h

end

/-- C3 (amended). In breadth-first mode the level-order guarantee holds
per directory, not across the whole tree: every visit of a directory
yields its trace as the directory's own (accepted) entries — all recorded
at the directory's path — followed by the items of its subdirectories'
recursive visits, which all lie strictly deeper; the deferred
subdirectories are traversed to completion one after another, so entries
of one subtree can precede shallower entries of a later sibling. -/
theorem walker_bfs_directory_level_order (w : RepoWalker) (rname : String)
    (repo : Repo) (base : String) (es : List FsEntry)
    (hb : w.breadthFirst = true) (hg : goodL es = true) :
    ∃ t1 t2, (visitDir w rname repo base es).trace = t1 ++ t2
      ∧ (∀ it ∈ t1, it.path = base)
      ∧ (∀ it ∈ t2, base.length < it.path.length) := by
  rw [visitDir, assembleDir]
  cases herr : (visitEntries w rname repo base es).err with
  | some msg =>
    refine ⟨(visitEntries w rname repo base es).trace, [], by simp, ?_, by simp⟩
    intro it hm
    exact visitEntries_bfs_paths w rname repo base hb es it hm
  | none =>
    rw [hb]
    refine ⟨(visitEntries w rname repo base es).trace,
      (visitSubdirs w rname repo base es).trace, by simp, ?_, ?_⟩
    · intro it hm
      exact visitEntries_bfs_paths w rname repo base hb es it hm
    · intro it hm
      exact visitSubdirs_level w rname repo base es it hg hm

/-- A breadth-first walker with no filters, no prefix and an always-ok
callback. -/
def bfsW : RepoWalker := ⟨fun _ => none, "", [], true⟩

/-- A tree with two sibling directories of different depths: `a/a1/f`
and `b/g`. -/
def lvlTree : List FsEntry :=
  [.dir "a" [.dir "a1" [.file "f"]], .dir "b" [.file "g"]]

/-- Depth of a visited item, measured as the number of separators in the
recorded directory path. -/
def itemDepth (it : WalkingItem) : Nat := it.path.toList.countP (· = '/')

/-- C3 counterexample: the breadth-first walk of `lvlTree` visits the
depth-3 entry `f` (inside the first deferred subtree) before the depth-2
entry `g` (inside the second), so the visiting order is not level order
over the whole tree: the depth sequence 0,0,1,2,1 is not monotone. -/
theorem walker_bfs_not_global_level_order :
    (RepoWalker.visit bfsW "n" (.localR ⟨"r", ""⟩) lvlTree).trace.map
        (fun it => (it.path, it.name)) =
      [("r", "a"), ("r", "b"), ("r/a", "a1"), ("r/a/a1", "f"), ("r/b", "g")]
    ∧ ¬ (((RepoWalker.visit bfsW "n" (.localR ⟨"r", ""⟩) lvlTree).trace.map
        itemDepth).Pairwise (· ≤ ·)) := by
  decide

/-- Closed witness for `walker_bfs_directory_level_order`. -/
theorem walker_bfs_directory_level_order_witness :
    bfsW.breadthFirst = true ∧ goodL lvlTree = true
    ∧ (∃ t1 t2,
        (visitDir bfsW "n" (.localR ⟨"r", ""⟩) "r" lvlTree).trace = t1 ++ t2
        ∧ (∀ it ∈ t1, it.path = "r")
        ∧ (∀ it ∈ t2, ("r" : String).length < it.path.length)) :=
  ⟨rfl, by decide,
    walker_bfs_directory_level_order bfsW "n" (.localR ⟨"r", ""⟩) "r" lvlTree
      rfl (by decide)⟩
